import Mathlib

/-!
Verification of the osmflat-rs compiler core against its specification.

The definitions below are a shallow embedding of the Rust sources:
  * osmflatc/src/ids.rs      (IdBlock, IdTableBuilder, IdTable)
  * osmflatc/src/strings.rs  (StringTable)
  * osmflatc/src/main.rs     (I40, TagSerializer, serialize_dense_nodes,
                              serialize_relations, gcd, run)
  * osmflat/src/tags.rs      (has_tag)

Machine integers are modelled as Nat (u8/u32/u64/usize) or Int (i32/i64),
with explicit wrapping where the code can overflow.  Byte strings are
List Nat.  Panics (slice indexing out of bounds, assert!, unwrap) are
modelled with Except: Except.error means the Rust code panics.
-/

/-! ## osmflatc/src/ids.rs -/

/-- ID_BLOCK_SIZE = 1 << 24 -/
def ID_BLOCK_SIZE : Nat := 2 ^ 24

/-- DENSE_LOOKUP_BLOCK_SIZE = 1 << 4 -/
def DENSE_LOOKUP_BLOCK_SIZE : Nat := 2 ^ 4

/-- An IdBlock is either Sparse (a sorted list of truncated ids; the position
determines the index) or Dense (a bitset of the whole range plus an offsets
lookup holding the running sum of set bits every DENSE_LOOKUP_BLOCK_SIZE * 8
bits). -/
inductive IdBlock where
  | Sparse (ids : List Nat)
  | Dense (includes : List Nat) (offsets : List Nat)
  deriving Repr, DecidableEq

/-- Number of one bits of a byte (`u8::count_ones`). -/
def popcount8 (x : Nat) : Nat := (List.range 8).countP (fun i => x.testBit i)

/-- Set the bit for truncated id `x` in the Dense bitset:
`includes[x / 8] |= 1 << (x % 8)`.  The index is always in bounds for
x < 2^24 since the bitset has 2^24/8 bytes, so List.set is faithful. -/
def insertBit (includes : List Nat) (x : Nat) : List Nat :=
  includes.set (x / 8) ((includes.getD (x / 8) 0) ||| (1 <<< (x % 8)))

/-- IdBlock::insert: adds a truncated id into the current block.  A Sparse
block overflowing its budget is converted to Dense by re-inserting all of
its ids (the recursive `dense.insert` calls always hit the Dense arm, which
is `insertBit`). -/
def IdBlock.insert (b : IdBlock) (x : Nat) : IdBlock :=
  match b with
  | .Sparse ids =>
      if ids.length * 8 < ID_BLOCK_SIZE / 8 then .Sparse (ids ++ [x])
      else
        .Dense ((ids ++ [x]).foldl insertBit (List.replicate (ID_BLOCK_SIZE / 8) 0))
          (List.replicate (ID_BLOCK_SIZE / 8 / DENSE_LOOKUP_BLOCK_SIZE) 0)
  | .Dense includes offsets => .Dense (insertBit includes x) offsets

/-- Sum of the popcounts of bytes `block*16 .. (block+1)*16` of the bitset
(one lookup chunk). -/
def chunkPop (includes : List Nat) (block : Nat) : Nat :=
  (((includes.drop (block * DENSE_LOOKUP_BLOCK_SIZE)).take DENSE_LOOKUP_BLOCK_SIZE).map
      popcount8).sum

/-- IdBlock::finalize: establishes the offsets lookup of a Dense block.
First loop writes the per-chunk popcounts shifted by one, second loop turns
them into prefix sums. -/
def IdBlock.finalize (b : IdBlock) : IdBlock :=
  match b with
  | .Sparse ids => .Sparse ids
  | .Dense includes offsets =>
      let o1 := (List.range (offsets.length - 1)).foldl
        (fun ofs block => ofs.set (block + 1) (chunkPop includes block)) offsets
      let o2 := (List.range (offsets.length - 1)).foldl
        (fun ofs block => ofs.set (block + 1) (ofs.getD (block + 1) 0 + ofs.getD block 0)) o1
      .Dense includes o2

/-- IdBlock::count: amount of ids in the block.  For Dense it is the last
offset plus the popcount of the final lookup chunk. -/
def IdBlock.count (b : IdBlock) : Nat :=
  match b with
  | .Sparse ids => ids.length
  | .Dense includes offsets =>
      (offsets.getLast?.getD 0)
        + (((includes.drop (includes.length - DENSE_LOOKUP_BLOCK_SIZE)).map popcount8).sum)

/-- IdBlock::pos: find the index of a truncated id if it is in the block.
`ids.binary_search(&x)` on the sorted Sparse vector succeeds exactly when
`x` occurs, returning its position; we model it by `List.findIdx?`. -/
def IdBlock.pos (b : IdBlock) (x : Nat) : Option Nat :=
  match b with
  | .Sparse ids => ids.findIdx? (fun y => y == x)
  | .Dense includes offsets =>
      if (includes.getD (x / 8) 0) &&& (1 <<< (x % 8)) = 0 then none
      else
        let offset_pos := x / 8 / DENSE_LOOKUP_BLOCK_SIZE
        let start_block := offset_pos * 8 * DENSE_LOOKUP_BLOCK_SIZE
        let rest := x % (8 * DENSE_LOOKUP_BLOCK_SIZE)
        some ((List.range rest).foldl
          (fun result j =>
            result +
              (if (includes.getD ((start_block + j) / 8) 0) &&& (1 <<< ((start_block + j) % 8)) ≠ 0
               then 1 else 0))
          (offsets.getD offset_pos 0))

/-- IdTable maps u64 ids to a consecutive range of indexes; one (offset,
block) pair per value of x / 2^24. -/
structure IdTable where
  data : List (Nat × IdBlock)
  deriving Repr, DecidableEq

/-- IdTableBuilder: the same data as IdTable, still in the process of being
built. -/
structure IdTableBuilder where
  data : List IdBlock
  last_id : Option Nat
  next_id : Nat
  deriving Repr, DecidableEq

/-- IdTableBuilder::new / Default. -/
def IdTableBuilder.new : IdTableBuilder := ⟨[], none, 0⟩

/-- IdTableBuilder::insert: inserts an id and returns the mapped index.
The `assert!(last_id < x, "Ids are expected to be sorted")` is modelled as
an Except.error carrying the assertion message. -/
def IdTableBuilder.insert (b : IdTableBuilder) (x : Nat) :
    Except String (IdTableBuilder × Nat) := do
  match b.last_id with
  | some last_id =>
      if ¬ (last_id < x) then throw "Ids are expected to be sorted"
  | none => pure ()
  let id_set := x >>> 24
  let data :=
    if b.data.length ≤ id_set then
      b.data ++ List.replicate (id_set + 1 - b.data.length) (IdBlock.Sparse [])
    else b.data
  let data := data.set id_set ((data.getD id_set (IdBlock.Sparse [])).insert (x % 2 ^ 24))
  pure (⟨data, some x, b.next_id + 1⟩, b.next_id)

/-- Folds IdTableBuilder::insert over a list of ids, collecting the returned
indexes. -/
def IdTableBuilder.insertAll (b : IdTableBuilder) (xs : List Nat) :
    Except String (IdTableBuilder × List Nat) := do
  match xs with
  | [] => pure (b, [])
  | x :: rest => do
      let (b, i) ← b.insert x
      let (b, is) ← b.insertAll rest
      pure (b, i :: is)

/-- IdTableBuilder::build: finalize every block, then pair each block with
the running sum of the counts of the blocks before it (the `scan`). -/
def IdTableBuilder.build (b : IdTableBuilder) : IdTable :=
  let fin := b.data.map IdBlock.finalize
  ⟨(fin.foldl (fun acc blk => (acc.1 ++ [(acc.2, blk)], acc.2 + blk.count)) ([], 0)).1⟩

/-- IdTable::get.  The source checks `id_set > self.data.len()` and then
indexes `self.data[id_set]`: when `id_set` equals the length this indexing
is out of bounds, which we model as Except.error (a Rust panic). -/
def IdTable.get (t : IdTable) (x : Nat) : Except Unit (Option Nat) :=
  let id_set := x >>> 24
  if id_set > t.data.length then .ok none
  else
    match t.data.get? id_set with
    | none => .error ()
    | some (offset, blk) => .ok ((blk.pos (x % 2 ^ 24)).map (fun pos => offset + pos))

/-- Builds an IdTable from a list of ids inserted in order. -/
def buildFromList (xs : List Nat) : Except String IdTable :=
  (IdTableBuilder.new.insertAll xs).map (fun p => p.1.build)

/-! ## osmflatc/src/main.rs: I40 -/

/-- I40: a 40-bit value stored as 5 little-endian bytes (main.rs). -/
structure I40 where
  b0 : Nat
  b1 : Nat
  b2 : Nat
  b3 : Nat
  b4 : Nat
  deriving Repr, DecidableEq

/-- I40::from_u64: keep the 5 low little-endian bytes of x.  (The
`debug_assert!` that the three high bytes are zero is compiled out in
release builds; the function itself just truncates.) -/
def I40.from_u64 (x : Nat) : I40 :=
  ⟨x % 2 ^ 8, x / 2 ^ 8 % 2 ^ 8, x / 2 ^ 16 % 2 ^ 8, x / 2 ^ 24 % 2 ^ 8, x / 2 ^ 32 % 2 ^ 8⟩

/-- I40::to_u64: zero-extend the 5 bytes back to a u64. -/
def I40.to_u64 (a : I40) : Nat :=
  a.b0 + 2 ^ 8 * a.b1 + 2 ^ 16 * a.b2 + 2 ^ 24 * a.b3 + 2 ^ 32 * a.b4

/-! ## osmflatc/src/main.rs: TagSerializer -/

/-- TagSerializer: holds the tags and tags_index external vectors and the
deduplication table `(key_idx, val_idx) -> pos` (an AHashMap, modelled as
an association list with newest entries in front). -/
structure TagSerializer where
  tags : List (Nat × Nat)
  tags_index : List Nat
  dedup : List ((I40 × I40) × I40)
  deriving Repr, DecidableEq

/-- TagSerializer::new: both vectors start empty. -/
def TagSerializer.new : TagSerializer := ⟨[], [], []⟩

/-- TagSerializer::serialize: look the packed pair up in the dedup map; a
hit appends the recorded position to tags_index, a miss grows the Tag
column, records the new position, and appends it. -/
def TagSerializer.serialize (ts : TagSerializer) (key_idx val_idx : Nat) : TagSerializer :=
  match List.lookup (I40.from_u64 key_idx, I40.from_u64 val_idx) ts.dedup with
  | some entry => { ts with tags_index := ts.tags_index ++ [entry.to_u64] }
  | none =>
      let idx := ts.tags.length
      { tags := ts.tags ++ [(key_idx, val_idx)],
        tags_index := ts.tags_index ++ [idx],
        dedup := ((I40.from_u64 key_idx, I40.from_u64 val_idx), I40.from_u64 idx) :: ts.dedup }

/-- TagSerializer::next_index: the current length of tags_index. -/
def TagSerializer.next_index (ts : TagSerializer) : Nat := ts.tags_index.length

/-- Folds serialize over a list of (key_idx, val_idx) pairs. -/
def TagSerializer.serializeAll (ts : TagSerializer) (ps : List (Nat × Nat)) : TagSerializer :=
  ps.foldl (fun t p => t.serialize p.1 p.2) ts

/-- Dedup in first-appearance order, starting from an already-deduplicated
accumulator: fold that appends an element only on its first occurrence. -/
def firstDedupFrom {α : Type} [DecidableEq α] (acc : List α) (ps : List α) : List α :=
  ps.foldl (fun acc p => if p ∈ acc then acc else acc ++ [p]) acc

/-- Dedup in first-appearance order: the list of distinct elements of ps in
the order of their first occurrence. -/
def firstDedup {α : Type} [DecidableEq α] (ps : List α) : List α :=
  firstDedupFrom [] ps

/-- The I40 image of a tag pair. -/
def pairImage (p : Nat × Nat) : I40 × I40 := (I40.from_u64 p.1, I40.from_u64 p.2)

/-- Invariant of the tag serializer relating the dedup map to the Tag
column. -/
def TagInv (ts : TagSerializer) : Prop :=
  (∀ p ∈ ts.tags, p.1 < 2 ^ 40 ∧ p.2 < 2 ^ 40) ∧
  (∀ q : I40 × I40, (List.lookup q ts.dedup).isSome ↔ q ∈ ts.tags.map pairImage) ∧
  (ts.tags.map pairImage).Nodup

/-! ## osmflatc/src/strings.rs -/

/-- One backing buffer of the string table: its fixed capacity and current
contents.  (The Rust code never lets a buffer reallocate.) -/
structure StrBuffer where
  cap : Nat
  bytes : List Nat
  deriving Repr, DecidableEq

/-- StringTable: a growable sequence of never-relocated backing buffers
(stored here newest-first, so the Rust `data.last_mut()` is the list head),
the dedup hash map, and the total size.  The map key in Rust is a pointer
read up to the terminating NUL; for strings without embedded NUL bytes that
key is exactly the inserted string, which is how we model it. -/
structure StringTable where
  data : List StrBuffer
  indexed_data : List (List Nat × Nat)
  size_in_bytes : Nat
  deriving Repr, DecidableEq

/-- StringTable::new / Default. -/
def StringTable.new : StringTable := ⟨[], [], 0⟩

/-- StringTable::insert: return the stored offset on a dedup hit; otherwise
append `s ++ [0]` to the last buffer (opening a fresh buffer of capacity
max(4 MiB, len+1) when the last one cannot hold `len+1` more bytes), record
the offset, and bump the size. -/
def StringTable.insert (st : StringTable) (s : List Nat) : StringTable × Nat :=
  match List.lookup s st.indexed_data with
  | some idx => (st, idx)
  | none =>
      let idx := st.size_in_bytes
      let data :=
        match st.data with
        | [] => [StrBuffer.mk (max (1024 * 1024 * 4) (s.length + 1)) []]
        | b :: rest =>
            if b.bytes.length + s.length < b.cap then b :: rest
            else StrBuffer.mk (max (1024 * 1024 * 4) (s.length + 1)) [] :: b :: rest
      let data :=
        match data with
        | [] => []
        | b :: rest => { b with bytes := b.bytes ++ (s ++ [0]) } :: rest
      (⟨data, (s, idx) :: st.indexed_data, st.size_in_bytes + s.length + 1⟩, idx)

/-- StringTable::into_bytes: concatenate the buffers in insertion order. -/
def StringTable.into_bytes (st : StringTable) : List Nat :=
  (st.data.reverse.map StrBuffer.bytes).flatten

/-- Folds insert over a list of strings, collecting the returned offsets. -/
def StringTable.insertMany (st : StringTable) (ss : List (List Nat)) :
    StringTable × List Nat :=
  match ss with
  | [] => (st, [])
  | s :: rest =>
      let p := st.insert s
      let q := p.1.insertMany rest
      (q.1, p.2 :: q.2)

/-- Invariant of the string table: the blob length equals size_in_bytes,
the blob is the concatenation of the recorded strings (each NUL-terminated)
in first-insertion order, every recorded offset points at its string inside
the blob, and the recorded offsets are pairwise distinct. -/
def StrInv (st : StringTable) : Prop :=
  st.into_bytes.length = st.size_in_bytes ∧
  st.into_bytes = (st.indexed_data.reverse.map (fun p => p.1 ++ [0])).flatten ∧
  (∀ p ∈ st.indexed_data, p.2 + p.1.length + 1 ≤ st.size_in_bytes ∧
      (st.into_bytes.drop p.2).take (p.1.length + 1) = p.1 ++ [0]) ∧
  (st.indexed_data.map Prod.snd).Nodup

/-! ## osmflatc/src/main.rs: gcd and coordinate scale -/

/-- The gcd helper of main.rs, transcribed: x starts as the smaller and y as
the larger argument; while x > 1 do { y %= x; swap }.  (The i32 arguments
are modelled as Nat: the granularities the compiler feeds in are
non-negative and Euclid's steps only shrink them.)  Note the loop stops at
x = 1 and returns y, not 1. -/
def gcdLoop (x y : Nat) : Nat :=
  if h : 1 < x then gcdLoop (y % x) x else y
termination_by x
decreasing_by exact Nat.mod_lt y (by omega)

/-- gcd(a, b) of main.rs. -/
def gcdRust (a b : Nat) : Nat := gcdLoop (min a b) (max a b)

/-- Stats of osmflatc/src/stats.rs. -/
structure Stats where
  num_nodes : Nat := 0
  num_ways : Nat := 0
  num_relations : Nat := 0
  num_unresolved_node_ids : Nat := 0
  num_unresolved_way_ids : Nat := 0
  num_unresolved_rel_ids : Nat := 0
  deriving Repr, DecidableEq

/-- Stats::add_assign. -/
def Stats.add (a b : Stats) : Stats :=
  ⟨a.num_nodes + b.num_nodes, a.num_ways + b.num_ways,
   a.num_relations + b.num_relations,
   a.num_unresolved_node_ids + b.num_unresolved_node_ids,
   a.num_unresolved_way_ids + b.num_unresolved_way_ids,
   a.num_unresolved_rel_ids + b.num_unresolved_rel_ids⟩

/-- Block payload types (osmpbf.rs). -/
inductive BlockType where
  | Header
  | Nodes
  | DenseNodes
  | Ways
  | Relations
  deriving Repr, DecidableEq

/-- Dense nodes of a primitive group: delta-encoded ids and coordinates and
the concatenated keys_vals array. -/
structure DenseNodes where
  id : List Int
  lat : List Int
  lon : List Int
  keys_vals : List Nat
  deriving Repr, DecidableEq

/-- A way of a primitive group. -/
structure PbfWay where
  id : Int
  keys : List Nat
  vals : List Nat
  refs : List Int
  deriving Repr, DecidableEq

/-- A relation of a primitive group.  `types` carries the raw i32 member
type tags (0 = Node, 1 = Way, 2 = Relation). -/
structure PbfRelation where
  id : Int
  keys : List Nat
  vals : List Nat
  roles_sid : List Nat
  memids : List Int
  types : List Nat
  deriving Repr, DecidableEq

/-- A primitive group: exactly one of the payloads is populated. -/
structure PrimitiveGroup where
  dense : Option DenseNodes := none
  ways : List PbfWay := []
  relations : List PbfRelation := []
  deriving Repr, DecidableEq

/-- A decoded PrimitiveBlock: its string table (list of byte strings), its
groups, and the optional block-level granularity and offsets.  The
granularity is an int32 in the wire format; the compiler only treats it as
a positive scaling factor, so we model it as Nat. -/
structure PrimitiveBlock where
  stringtable : List (List Nat)
  primitivegroup : List PrimitiveGroup
  granularity : Option Nat := none
  lat_offset : Option Int := none
  lon_offset : Option Int := none
  deriving Repr, DecidableEq

/-- One entry of the block index, as consumed by run(): the classified
payload type and the block's granularity (populated by the block-index
builder; None when the block does not set one). -/
structure BlockIndex where
  block_type : BlockType
  granularity : Option Nat := none
  deriving Repr, DecidableEq

/-- The granularity fold of run(): start from 1e9 and fold the gcd helper
over the granularities explicitly present in dense-node blocks. -/
def greatestCommonGranularity (blocks : List BlockIndex) : Nat :=
  blocks.foldl
    (fun acc b =>
      if b.block_type = BlockType.DenseNodes then
        match b.granularity with
        | some g => gcdRust acc g
        | none => acc
      else acc)
    1000000000

/-- coord_scale of run(): 1e9 divided by the folded granularity. -/
def coordScale (blocks : List BlockIndex) : Nat :=
  1000000000 / greatestCommonGranularity blocks

/-- add_string_table of main.rs: intern every string of the block's string
table and return the vector of interned offsets.  (The UTF-8 check cannot
fail in the byte-level model; the pool stores raw bytes.) -/
def add_string_table (pbf_stringtable : List (List Nat)) (st : StringTable) :
    List Nat × StringTable :=
  pbf_stringtable.foldl
    (fun acc x =>
      let r := acc.2.insert x
      (acc.1 ++ [r.2], r.1))
    ([], st)

/-- Truncating i64-to-u64 cast (`id as u64`). -/
def toU64 (z : Int) : Nat := (z % (2 ^ 64 : Int)).toNat

/-- Truncating i64-to-i32 cast (`… as i32`). -/
def wrap32 (z : Int) : Int := (z + 2 ^ 31) % 2 ^ 32 - 2 ^ 31

/-- One node row of the produced archive.  flatdata grows zero-initialized
rows, so every field defaults to 0 until set. -/
structure NodeRow where
  lat : Int := 0
  lon : Int := 0
  tag_first_idx : Nat := 0
  deriving Repr, DecidableEq, Inhabited

/-- The state threaded through the dense-node phase: the nodes column, the
optional ids column, the nodes id table builder, the string table and the
tag serializer. -/
structure DenseState where
  nodes : List NodeRow
  node_ids : Option (List Nat)
  builder : IdTableBuilder
  strtab : StringTable
  tags : TagSerializer
  deriving Repr, DecidableEq

/-- The inner keys_vals loop of serialize_dense_nodes: consume tokens until
a 0 separator, serializing each (k, v) pair through the interned string
refs.  The cursor `tags_offset` into keys_vals is represented by the
remaining suffix of keys_vals (structurally decreasing); running off the
end of keys_vals, or a string_refs index out of bounds, is a panic. -/
def readTags (refs : List Nat) : TagSerializer → List Nat →
    Except String (TagSerializer × List Nat)
  | _, [] => throw "keys_vals index out of bounds"
  | ts, k :: rest =>
      if k = 0 then pure (ts, rest)
      else
        match rest with
        | [] => throw "keys_vals index out of bounds"
        | v :: rest2 =>
            match refs.get? k, refs.get? v with
            | some rk, some rv => readTags refs (ts.serialize rk rv) rest2
            | _, _ => throw "string_refs index out of bounds"

/-- The per-node loop of serialize_dense_nodes over one dense group:
iterate the delta arrays in lockstep (an id with no matching lat/lon entry
is an indexing panic), accumulating the delta-decoded id/lat/lon and the
keys_vals cursor (as the remaining suffix `kv`).  Returns the final state
and remaining keys_vals (checked by the caller's assert). -/
def denseLoop (pbfGran latOff lonOff granularity : Int) (refs : List Nat) :
    List Int → List Int → List Int → List Nat → Int → Int → Int → DenseState →
    Except String (DenseState × List Nat)
  | [], _, _, kv, _, _, _, st => .ok (st, kv)
  | dId :: idRest, lats, lons, kv, idAcc, latAcc, lonAcc, st =>
      match lats, lons with
      | dLat :: latRest, dLon :: lonRest =>
          match st.builder.insert (toU64 (idAcc + dId)) with
          | .error e => .error e
          | .ok (builder, index) =>
              if index ≠ st.nodes.length then
                .error "assertion failed: index == nodes.len()"
              else
                let node_ids := st.node_ids.map (fun l => l ++ [toU64 (idAcc + dId)])
                let lat := latAcc + dLat
                let lon := lonAcc + dLon
                let latv := wrap32 ((latOff + pbfGran * lat).tdiv granularity)
                let lonv := wrap32 ((lonOff + pbfGran * lon).tdiv granularity)
                if kv.isEmpty then
                  denseLoop pbfGran latOff lonOff granularity refs idRest latRest lonRest
                    kv (idAcc + dId) lat lon
                    ⟨st.nodes ++ [⟨latv, lonv, 0⟩], node_ids, builder, st.strtab, st.tags⟩
                else
                  match readTags refs st.tags kv with
                  | .error e => .error e
                  | .ok (tags, kvRest) =>
                      denseLoop pbfGran latOff lonOff granularity refs idRest latRest
                        lonRest kvRest (idAcc + dId) lat lon
                        ⟨st.nodes ++ [⟨latv, lonv, st.tags.next_index⟩],
                          node_ids, builder, st.strtab, tags⟩
      | _, _ => .error "lat/lon index out of bounds"

/-- The group loop of serialize_dense_nodes. -/
def denseGroups (block : PrimitiveBlock) (granularity : Int) (refs : List Nat) :
    List PrimitiveGroup → DenseState → Stats → Except String (DenseState × Stats)
  | [], st, stats => pure (st, stats)
  | group :: rest, st, stats => do
      match group.dense with
      | none => throw "called Option::unwrap() on a None value"
      | some dense => do
          let pbf_granularity : Int := (block.granularity.getD 100 : Nat)
          let lat_offset := block.lat_offset.getD 0
          let lon_offset := block.lon_offset.getD 0
          let (st, kvRem) ←
            denseLoop pbf_granularity lat_offset lon_offset granularity refs
              dense.id dense.lat dense.lon dense.keys_vals 0 0 0 st
          if ¬ kvRem.isEmpty then
            throw "assertion failed: tags_offset == keys_vals.len()"
          denseGroups block granularity refs rest st
            { stats with num_nodes := stats.num_nodes + dense.id.length }

/-- serialize_dense_nodes: intern the block's string table, then serialize
every dense group, returning the per-block stats. -/
def serialize_dense_nodes (block : PrimitiveBlock) (granularity : Int)
    (st : DenseState) : Except String (DenseState × Stats) := do
  let (string_refs, strtab) := add_string_table block.stringtable st.strtab
  denseGroups block granularity string_refs block.primitivegroup
    { st with strtab := strtab } {}

/-- serialize_dense_node_blocks: the ordered pipeline consumes the dense
blocks in input order (cf. parallel.rs), so the phase is the sequential
fold of serialize_dense_nodes; afterwards the sentinel node row is grown
and its tag_first_idx set to the final tag-index length, and the id table
is frozen. -/
def serializeDenseNodeBlocks (blocks : List PrimitiveBlock) (granularity : Int)
    (st : DenseState) (stats : Stats) : Except String (DenseState × IdTable × Stats) := do
  match blocks with
  | [] =>
      let sentry : NodeRow := ⟨0, 0, st.tags.next_index⟩
      pure ({ st with nodes := st.nodes ++ [sentry] }, st.builder.build, stats)
  | block :: rest => do
      let (st, s) ← serialize_dense_nodes block granularity st
      serializeDenseNodeBlocks rest granularity st (stats.add s)

/-- First dense block of the C4 input: two nodes (ids 1 and 2), each with a
single tag k=1 v=1 (string index 1 = "k"), keys_vals covering both. -/
def c4Block1 : PrimitiveBlock :=
  { stringtable := [[], [107]],
    primitivegroup := [{ dense := some ⟨[1, 1], [0, 0], [0, 0], [1, 1, 0, 1, 1, 0]⟩ }] }

/-- Second dense block of the C4 input: one untagged node (id 3) with an
empty keys_vals array — legal in the PBF format when no node of the block
has tags. -/
def c4Block2 : PrimitiveBlock :=
  { stringtable := [[]],
    primitivegroup := [{ dense := some ⟨[3], [0], [0], []⟩ }] }

/-- Fresh dense-phase state. -/
def denseInit : DenseState :=
  ⟨[], none, IdTableBuilder.new, StringTable.new, TagSerializer.new⟩

/-- The granularities explicitly present in dense-node blocks, in input
order. -/
def explicitGranularities (blocks : List BlockIndex) : List Nat :=
  blocks.filterMap
    (fun b => if b.block_type = BlockType.DenseNodes then b.granularity else none)

/-- Every intermediate gcd along the fold is at least 2 (decidable
sufficient condition under which the helper fold is the true gcd fold). -/
def foldGcdGoodB : Nat → List Nat → Bool
  | _, [] => true
  | acc, g :: gs => decide (2 ≤ Nat.gcd acc g) && foldGcdGoodB (Nat.gcd acc g) gs

/-- Row specification for the dense-node serializer: the rows written at
positions base, base+1, … carry the delta-decoded source coordinate,
rescaled by integer (truncating) division by the archive granularity G and
truncated to i32. -/
def RowsSpec (nodes : List NodeRow) (base cnt : Nat)
    (latOff lonOff pbfGran G latAcc lonAcc : Int) (lats lons : List Int) : Prop :=
  ∀ j, j < cnt →
    (nodes.getD (base + j) default).lat
        = wrap32 ((latOff + pbfGran * (latAcc + (lats.take (j + 1)).sum)).tdiv G) ∧
    (nodes.getD (base + j) default).lon
        = wrap32 ((lonOff + pbfGran * (lonAcc + (lons.take (j + 1)).sum)).tdiv G)

/-- osmpbf relation member types (prost enum: 0 = Node, 1 = Way,
2 = Relation). -/
inductive MemberType where
  | Node
  | Way
  | Relation
  deriving Repr, DecidableEq

/-- MemberType::from_i32. -/
def MemberType.from_i32 (x : Nat) : Option MemberType :=
  match x with
  | 0 => some .Node
  | 1 => some .Way
  | 2 => some .Relation
  | _ => none

/-- One row of the relation-members multi-vector: the tagged-union variant
with its optional target index and role string offset. -/
inductive RelMember where
  | node (idx : Option Nat) (role : Nat)
  | way (idx : Option Nat) (role : Nat)
  | rel (idx : Option Nat) (role : Nat)
  deriving Repr, DecidableEq

/-- State threaded through serialize_relations: the relation rows (their
tag_first_idx), the optional ids column, the members multi-vector, the
string table and the tag serializer. -/
structure RelState where
  relations : List Nat
  relation_ids : Option (List Nat)
  relation_members : List (List RelMember)
  strtab : StringTable
  tags : TagSerializer
  deriving Repr, DecidableEq

/-- The per-relation tag loop: serialize (string_refs[keys[i]],
string_refs[vals[i]]) for every i; indexing beyond vals or string_refs is
a panic. -/
def relTags (refs : List Nat) : List Nat → List Nat → TagSerializer →
    Except String TagSerializer
  | [], _, ts => .ok ts
  | k :: kRest, vals, ts =>
      match vals with
      | [] => .error "index out of bounds"
      | v :: vRest =>
          match refs.get? k, refs.get? v with
          | some rk, some rv => relTags refs kRest vRest (ts.serialize rk rv)
          | _, _ => .error "index out of bounds"

/-- The member loop of serialize_relations, iterating roles_sid, memids and
types in lockstep (the loop bound is roles_sid.len(); shorter memids/types
is an indexing panic).  NOTE the faithful transcription of the source's
`stats.num_unresolved_* = idx.is_none() as usize`: the counter field is
ASSIGNED 0 or 1, not incremented. -/
def relMembers (nodes ways rels : IdTable) (refs : List Nat) :
    List Nat → List Int → List Nat → Int → List RelMember → Stats →
    Except String (List RelMember × Stats)
  | [], _, _, _, acc, stats => .ok (acc, stats)
  | role_sid :: rsRest, memids, types, memid, acc, stats =>
      match memids, types with
      | mDelta :: mRest, ty :: tyRest =>
          let memid2 := memid + mDelta
          match MemberType.from_i32 ty with
          | none => .error "called Option::unwrap() on a None value"
          | some mt =>
              match refs.get? role_sid with
              | none => .error "index out of bounds"
              | some role =>
                  match mt with
                  | .Node =>
                      match nodes.get (toU64 memid2) with
                      | .error _ => .error "index out of bounds"
                      | .ok idx =>
                          relMembers nodes ways rels refs rsRest mRest tyRest memid2
                            (acc ++ [RelMember.node idx role])
                            { stats with
                              num_unresolved_node_ids := if idx.isNone then 1 else 0 }
                  | .Way =>
                      match ways.get (toU64 memid2) with
                      | .error _ => .error "index out of bounds"
                      | .ok idx =>
                          relMembers nodes ways rels refs rsRest mRest tyRest memid2
                            (acc ++ [RelMember.way idx role])
                            { stats with
                              num_unresolved_way_ids := if idx.isNone then 1 else 0 }
                  | .Relation =>
                      match rels.get (toU64 memid2) with
                      | .error _ => .error "index out of bounds"
                      | .ok idx =>
                          relMembers nodes ways rels refs rsRest mRest tyRest memid2
                            (acc ++ [RelMember.rel idx role])
                            { stats with
                              num_unresolved_rel_ids := if idx.isNone then 1 else 0 }
      | _, _ => .error "index out of bounds"

/-- The relation loop of serialize_relations: per relation grow a row, set
its tag_first_idx, serialize its tags, then its members, and bump
num_relations. -/
def relLoop (nodes ways rels : IdTable) (refs : List Nat) :
    List PbfRelation → RelState → Stats → Except String (RelState × Stats)
  | [], st, stats => .ok (st, stats)
  | r :: rest, st, stats =>
      let relation_ids := st.relation_ids.map (fun l => l ++ [toU64 r.id])
      let tfi := st.tags.next_index
      match relTags refs r.keys r.vals st.tags with
      | .error e => .error e
      | .ok tags =>
          match relMembers nodes ways rels refs r.roles_sid r.memids r.types 0 [] stats with
          | .error e => .error e
          | .ok (members, stats2) =>
              relLoop nodes ways rels refs rest
                ⟨st.relations ++ [tfi], relation_ids,
                  st.relation_members ++ [members], st.strtab, tags⟩
                { stats2 with num_relations := stats2.num_relations + 1 }

/-- The group loop of serialize_relations. -/
def relGroups (nodes ways rels : IdTable) (refs : List Nat) :
    List PrimitiveGroup → RelState → Stats → Except String (RelState × Stats)
  | [], st, stats => .ok (st, stats)
  | g :: rest, st, stats =>
      match relLoop nodes ways rels refs g.relations st stats with
      | .error e => .error e
      | .ok (st, stats) => relGroups nodes ways rels refs rest st stats

/-- serialize_relations: intern the block's string table, then serialize
every group's relations, returning the per-block stats. -/
def serialize_relations (block : PrimitiveBlock) (nodes ways rels : IdTable)
    (st : RelState) : Except String (RelState × Stats) :=
  let r := add_string_table block.stringtable st.strtab
  relGroups nodes ways rels r.1 block.primitivegroup { st with strtab := r.2 } {}

/-- Reference-resolution loop of resolve_ways: delta-decode each node ref
and look it up in the frozen nodes table; this path INCREMENTS the
unresolved counter (`+=`). -/
def resolveRefs (tbl : IdTable) : List Int → Int → List (Option Nat) → Stats →
    Except String (List (Option Nat) × Stats)
  | [], _, acc, stats => .ok (acc, stats)
  | delta :: rest, node_ref, acc, stats =>
      let nr := node_ref + delta
      match tbl.get (toU64 nr) with
      | .error _ => .error "index out of bounds"
      | .ok idx =>
          resolveRefs tbl rest nr (acc ++ [idx])
            { stats with
              num_unresolved_node_ids :=
                stats.num_unresolved_node_ids + (if idx.isNone then 1 else 0) }

/-- resolve_ways of main.rs over one block. -/
def resolve_ways (block : PrimitiveBlock) (nodes_id_to_idx : IdTable) :
    Except String (List (Option Nat) × Stats) :=
  (block.primitivegroup.flatMap (fun g => g.ways)).foldlM
    (fun acc w => do
      let (r, stats) ← resolveRefs nodes_id_to_idx w.refs 0 [] acc.2
      pure (acc.1 ++ r, stats))
    (([], {}) : List (Option Nat) × Stats)

/-- An IdTable built from a sorted id list (the error default is never hit
in the concrete uses below). -/
def tableOf (xs : List Nat) : IdTable := ((buildFromList xs).toOption).getD ⟨[]⟩

/-- Fresh relation-phase state. -/
def relInit : RelState := ⟨[], none, [], StringTable.new, TagSerializer.new⟩

/-- C3 input 1: one relation (id 100) with two node members 5 and 6, both
absent from the nodes table {1}. -/
def c3Block1 : PrimitiveBlock :=
  { stringtable := [[]],
    primitivegroup := [{ relations := [⟨100, [], [], [0, 0], [5, 1], [0, 0]⟩] }] }

/-- C3 input 2: one relation (id 100) with node members 5 (absent) and 1
(present in the nodes table {1}). -/
def c3Block2 : PrimitiveBlock :=
  { stringtable := [[]],
    primitivegroup := [{ relations := [⟨100, [], [], [0, 0], [5, -4], [0, 0]⟩] }] }

/-- The number of absent (unresolved) node members stored in the members
multi-vector. -/
def absentNodeMembers (mss : List (List RelMember)) : Nat :=
  (mss.map (fun ms => ms.countP
    (fun m => match m with | .node none _ => true | _ => false))).sum

/-! ## osmflat/src/tags.rs -/

/-- The reader-side view of an archive used by the tag helpers: the Tag
rows, the TagIndex rows and the string pool bytes. -/
structure Osm where
  tags : List (Nat × Nat)
  tags_index : List Nat
  stringtable : List Nat
  deriving Repr, DecidableEq

/-- The `matches` closure of has_tag: take the suffix of the string pool at
`idx` (slicing past the end is a panic), test that it starts with the
pattern and that the byte right after the pattern — or the end of the
pool — is the NUL terminator (`block.get(len).unwrap_or(&0) == 0`). -/
def matchesAt (strings : List Nat) (idx : Nat) (pat : List Nat) : Except Unit Bool :=
  if idx > strings.length then .error ()
  else
    let block := strings.drop idx
    .ok (pat.isPrefixOf block && (block.getD pat.length 0 == 0))

/-- The scan loop of has_tag over `rem` remaining indices starting at
`idx`: stop at the first tag whose key matches and return its value test;
tags_index/tags indexing out of bounds is a panic. -/
def hasTagGo (a : Osm) (key value : List Nat) : Nat → Nat → Except Unit Bool
  | _, 0 => .ok false
  | idx, rem + 1 =>
      match a.tags_index.get? idx with
      | none => .error ()
      | some ti =>
          match a.tags.get? ti with
          | none => .error ()
          | some tag =>
              match matchesAt a.stringtable tag.1 key with
              | .error e => .error e
              | .ok true => matchesAt a.stringtable tag.2 value
              | .ok false => hasTagGo a key value (idx + 1) rem

/-- has_tag of osmflat/src/tags.rs over the range start..stop. -/
def has_tag (a : Osm) (start stop : Nat) (key value : List Nat) : Except Unit Bool :=
  hasTagGo a key value start (stop - start)

/-- The NUL-terminated string stored in the pool at a given offset (read up
to the terminator or the end of the pool). -/
def substringAt (strings : List Nat) (idx : Nat) : List Nat :=
  (strings.drop idx).takeWhile (fun b => b != 0)

/-- The tag row a tag-index position points at. -/
def tagAt (a : Osm) (i : Nat) : Option (Nat × Nat) :=
  (a.tags_index.get? i).bind (fun ti => a.tags.get? ti)

/-- Declarative description of has_tag, following the claim: scan the range
in order for the first tag whose key (read up to the NUL terminator)
equals the given key; return whether that first matching tag's value
equals the given value, and false when no key matches. -/
def hasTagSpec (a : Osm) (start stop : Nat) (key value : List Nat) : Bool :=
  match (List.range' start (stop - start)).find?
      (fun i => match tagAt a i with
        | some tag => substringAt a.stringtable tag.1 == key
        | none => false) with
  | some i =>
      match tagAt a i with
      | some tag => substringAt a.stringtable tag.2 == value
      | none => false
  | none => false

/-- The concrete archive of the C7 witness: string pool "hw\\0pr\\0se\\0",
two tag rows sharing the key "hw" with values "pr" and "se", and two
tag-index entries pointing at them. -/
def osmW : Osm :=
  ⟨[(0, 3), (0, 6)], [0, 1], [104, 119, 0, 112, 114, 0, 115, 101, 0]⟩

/-! ## Theorems -/

/-- Step lemma: when the sortedness assertion passes, insert succeeds and
returns the current next_id, advancing last_id and next_id. -/
theorem IdTableBuilder.insert_ok (b : IdTableBuilder) (x : Nat)
    (h : ∀ l ∈ b.last_id, l < x) :
    ∃ d : List IdBlock,
      b.insert x = .ok (⟨d, some x, b.next_id + 1⟩, b.next_id) := by
  obtain ⟨data, last, next⟩ := b
  cases last with
  | none => exact ⟨_, rfl⟩
  | some l =>
      have hlx : l < x := h l rfl
      have hred : ({ data := data, last_id := some l, next_id := next } : IdTableBuilder).insert x
          = ({ data := data, last_id := none, next_id := next } : IdTableBuilder).insert x := by
        simp [IdTableBuilder.insert, hlx]
      rw [hred]
      exact ⟨_, rfl⟩

/-- Helper: insertAll succeeds on a strictly increasing list whose head is
above the builder's last inserted id, returning consecutive indexes. -/
theorem IdTableBuilder.insertAll_ok : ∀ (xs : List Nat) (b : IdTableBuilder),
    xs.Chain' (· < ·) → (∀ l ∈ b.last_id, ∀ x ∈ xs.head?, l < x) →
    ∃ b' : IdTableBuilder,
      b.insertAll xs = .ok (b', List.range' b.next_id xs.length) ∧
        b'.last_id = xs.foldl (fun _ y => some y) b.last_id := by
  intro xs
  induction xs with
  | nil =>
      intro b _ _
      exact ⟨b, by simp [IdTableBuilder.insertAll, pure, Except.pure], by simp⟩
  | cons x rest ih =>
      intro b hchain hhead
      have hx : ∀ l ∈ b.last_id, l < x := by
        intro l hl; exact hhead l hl x (by simp)
      obtain ⟨d, hstep⟩ := IdTableBuilder.insert_ok b x hx
      obtain ⟨b', hb', hlast⟩ := ih ⟨d, some x, b.next_id + 1⟩ (List.chain'_cons'.mp hchain).2
        (by
          intro l hl y hy
          simp at hl
          subst hl
          cases rest with
          | nil => simp at hy
          | cons r rs =>
              simp at hy
              subst hy
              exact (List.chain'_cons.mp hchain).1)
      refine ⟨b', ?_, ?_⟩
      · rw [show b.insertAll (x :: rest) = (b.insert x).bind
              (fun p => (p.1.insertAll rest).bind (fun q => .ok (q.1, p.2 :: q.2))) from rfl,
          hstep]
        simp only [Except.bind]
        rw [hb']
        simp [List.range'_succ, pure, Except.pure]
      · rw [hlast]
        rfl

/-- Claim C9: IdTableBuilder::insert requires strictly increasing ids: an id
that is not strictly greater than the previously inserted one triggers the
assertion "Ids are expected to be sorted"; under the strictly-increasing
precondition the assertion never fires, insert always succeeds, and the
returned indexes are the consecutive insertion ranks 0, 1, 2, …. -/
theorem claim_C9_insert_requires_sorted :
    (∀ (b : IdTableBuilder) (last x : Nat), b.last_id = some last → x ≤ last →
        b.insert x = .error "Ids are expected to be sorted") ∧
    (∀ xs : List Nat, xs.Chain' (· < ·) →
        (IdTableBuilder.new.insertAll xs).toOption.map Prod.snd =
          some (List.range xs.length)) := by
  constructor
  · intro b last x hlast hle
    obtain ⟨data, lastf, next⟩ := b
    simp only at hlast
    subst hlast
    have hnlt : ¬ (last < x) := Nat.not_lt.mpr hle
    simp [IdTableBuilder.insert, hnlt, throw, throwThe, MonadExceptOf.throw]
  · intro xs hchain
    obtain ⟨b', hb', -⟩ := IdTableBuilder.insertAll_ok xs IdTableBuilder.new hchain
      (by intro l hl; simp [IdTableBuilder.new] at hl)
    rw [hb']
    simp only [List.range_eq_range']
    rfl

/-- Witness for claim C9 at concrete inputs: re-inserting 5 after 5 panics
with the assertion message, and inserting the strictly increasing sequence
1, 5, 9 succeeds and returns ranks 0, 1, 2. -/
theorem claim_C9_witness :
    (({ data := [IdBlock.Sparse [5]], last_id := some 5, next_id := 1 } :
        IdTableBuilder).insert 5 = .error "Ids are expected to be sorted") ∧
    (IdTableBuilder.new.insertAll [1, 5, 9]).toOption.map Prod.snd =
      some (List.range 3) :=
  ⟨claim_C9_insert_requires_sorted.1 _ 5 5 rfl (le_refl 5),
   claim_C9_insert_requires_sorted.2 [1, 5, 9] (by simp [List.chain'_cons])⟩

/-- Claim C1 (refuted): IdTable::get does panic for some queries.  The table
built from the single inserted id 0 has one bucket; querying x = 2^24 gives
id_set = 1, which passes the (off-by-one) bounds check `id_set > len` and
then indexes `data[1]` out of bounds — a panic, modelled as Except.error.
Queries strictly beyond the boundary bucket (x = 2^25) correctly return the
absent variant, and inserted ids are correctly found (get 0 = Some 0). -/
theorem claim_C1_get_panics_at_bucket_boundary :
    (buildFromList [0]).map
        (fun t => (t.get (2 ^ 24), t.get (2 ^ 25), t.get 0))
      = .ok (.error (), .ok none, .ok (some 0)) := rfl

/-- Round-tripping through I40 keeps exactly the low 40 bits. -/
theorem I40.to_from (x : Nat) : (I40.from_u64 x).to_u64 = x % 2 ^ 40 := by
  simp only [I40.from_u64, I40.to_u64]
  omega

/-- from_u64 only looks at the low 40 bits of its argument. -/
theorem I40.from_mod (x : Nat) : I40.from_u64 (x % 2 ^ 40) = I40.from_u64 x := by
  simp only [I40.from_u64, I40.mk.injEq]
  refine ⟨by omega, by omega, by omega, by omega, by omega⟩

/-- from_u64 is injective below 2^40. -/
theorem I40.from_inj {x y : Nat} (hx : x < 2 ^ 40) (hy : y < 2 ^ 40)
    (h : I40.from_u64 x = I40.from_u64 y) : x = y := by
  have := congrArg I40.to_u64 h
  rwa [I40.to_from, I40.to_from, Nat.mod_eq_of_lt hx, Nat.mod_eq_of_lt hy] at this

/-- Claim C10: for every u64 value below 2^40, to_u64 ∘ from_u64 is the
identity, and two u64 values produce equal I40 keys exactly when their low
40 bits agree — so the tag-deduplication map distinguishes string-pool
offsets only by their low 40 bits. -/
theorem claim_C10_i40_roundtrip :
    (∀ x : Nat, x < 2 ^ 40 → (I40.from_u64 x).to_u64 = x) ∧
    (∀ x y : Nat, I40.from_u64 x = I40.from_u64 y ↔ x % 2 ^ 40 = y % 2 ^ 40) := by
  constructor
  · intro x hx
    rw [I40.to_from, Nat.mod_eq_of_lt hx]
  · intro x y
    constructor
    · intro h
      have := congrArg I40.to_u64 h
      rwa [I40.to_from, I40.to_from] at this
    · intro h
      rw [← I40.from_mod x, ← I40.from_mod y, h]

/-- Witness for claim C10 at concrete inputs. -/
theorem claim_C10_witness :
    ((I40.from_u64 123456789).to_u64 = 123456789) ∧
    (I40.from_u64 (2 ^ 40 + 7) = I40.from_u64 7 ↔ (2 ^ 40 + 7) % 2 ^ 40 = 7 % 2 ^ 40) :=
  ⟨claim_C10_i40_roundtrip.1 123456789 (by norm_num),
   claim_C10_i40_roundtrip.2 (2 ^ 40 + 7) 7⟩

/-- An association-list lookup succeeds exactly when the key is present. -/
theorem lookup_isSome_iff {α β : Type} [BEq α] [LawfulBEq α] (l : List (α × β)) (a : α) :
    (List.lookup a l).isSome ↔ a ∈ l.map Prod.fst := by
  induction l with
  | nil => simp [List.lookup]
  | cons e rest ih =>
      by_cases h : a = e.1
      · simp [List.lookup, h]
      · have hbeq : (a == e.1) = false := beq_eq_false_iff_ne.mpr h
        simp [List.lookup, hbeq, ih, h]

/-- pairImage is injective on pairs of 40-bit offsets. -/
theorem pairImage_inj {p q : Nat × Nat}
    (hp : p.1 < 2 ^ 40 ∧ p.2 < 2 ^ 40) (hq : q.1 < 2 ^ 40 ∧ q.2 < 2 ^ 40)
    (h : pairImage p = pairImage q) : p = q := by
  obtain ⟨h1, h2⟩ := Prod.mk.injEq .. ▸ h
  have e1 : p.1 = q.1 := I40.from_inj hp.1 hq.1 (by simpa [pairImage] using congrArg Prod.fst h)
  have e2 : p.2 = q.2 := I40.from_inj hp.2 hq.2 (by simpa [pairImage] using congrArg Prod.snd h)
  exact Prod.ext e1 e2

/-- One serialize step preserves the invariant and advances the Tag column
by the first-appearance dedup rule. -/
theorem TagSerializer.serialize_step (ts : TagSerializer) (p : Nat × Nat)
    (hinv : TagInv ts) (hp : p.1 < 2 ^ 40 ∧ p.2 < 2 ^ 40) :
    TagInv (ts.serialize p.1 p.2) ∧
      (ts.serialize p.1 p.2).tags = firstDedupFrom ts.tags [p] := by
  obtain ⟨hbound, hlook, hnod⟩ := hinv
  have himg_mem : pairImage p ∈ ts.tags.map pairImage ↔ p ∈ ts.tags := by
    constructor
    · intro h
      obtain ⟨q, hq, hqe⟩ := List.mem_map.mp h
      have := pairImage_inj (hbound q hq) hp hqe
      rwa [← this]
    · intro h
      exact List.mem_map.mpr ⟨p, h, rfl⟩
  cases hcase : List.lookup (I40.from_u64 p.1, I40.from_u64 p.2) ts.dedup with
  | some entry =>
      have hser : ts.serialize p.1 p.2 =
          ⟨ts.tags, ts.tags_index ++ [entry.to_u64], ts.dedup⟩ := by
        simp [TagSerializer.serialize, hcase]
      have hmem : p ∈ ts.tags := himg_mem.mp ((hlook _).mp
        (by simp only [pairImage]; rw [hcase]; rfl))
      rw [hser]
      exact ⟨⟨hbound, hlook, hnod⟩, by simp [firstDedupFrom, hmem]⟩
  | none =>
      have hnmem : p ∉ ts.tags := by
        intro hc
        have hs : (List.lookup (I40.from_u64 p.1, I40.from_u64 p.2) ts.dedup).isSome :=
          (hlook _).mpr (himg_mem.mpr hc)
        rw [hcase] at hs
        simp at hs
      have hser : ts.serialize p.1 p.2 =
          ⟨ts.tags ++ [p], ts.tags_index ++ [ts.tags.length],
            ((I40.from_u64 p.1, I40.from_u64 p.2), I40.from_u64 ts.tags.length) :: ts.dedup⟩ := by
        simp [TagSerializer.serialize, hcase]
      have hpi_nmem : pairImage p ∉ ts.tags.map pairImage :=
        fun hc => hnmem (himg_mem.mp hc)
      rw [hser]
      refine ⟨⟨?_, ?_, ?_⟩, by simp [firstDedupFrom, hnmem]⟩
      · intro r hr
        simp only [List.mem_append, List.mem_singleton] at hr
        rcases hr with hr | hr
        · exact hbound r hr
        · rw [hr]; exact hp
      · intro q
        show (List.lookup q (((I40.from_u64 p.1, I40.from_u64 p.2),
            I40.from_u64 ts.tags.length) :: ts.dedup)).isSome
          ↔ q ∈ (ts.tags ++ [p]).map pairImage
        rw [List.lookup]
        by_cases hq : q = (I40.from_u64 p.1, I40.from_u64 p.2)
        · subst hq
          simp [pairImage]
        · have hbeq : (q == (I40.from_u64 p.1, I40.from_u64 p.2)) = false :=
            beq_eq_false_iff_ne.mpr hq
          simp only [hbeq]
          rw [hlook q]
          simp only [List.map_append, List.mem_append, List.map_cons, List.map_nil,
            List.mem_singleton]
          constructor
          · intro h; exact Or.inl h
          · intro h
            rcases h with h | h
            · exact h
            · exact absurd h hq
      · show ((ts.tags ++ [p]).map pairImage).Nodup
        rw [List.map_append]
        refine List.Nodup.append hnod (by simp) ?_
        intro a ha hb
        simp only [List.map_cons, List.map_nil, List.mem_singleton] at hb
        rw [hb] at ha
        exact hpi_nmem ha

/-- serializeAll preserves the invariant and builds the Tag column as the
first-appearance dedup of the serialized pairs. -/
theorem TagSerializer.serializeAll_inv : ∀ (ps : List (Nat × Nat)) (ts : TagSerializer),
    TagInv ts → (∀ p ∈ ps, p.1 < 2 ^ 40 ∧ p.2 < 2 ^ 40) →
    TagInv (ts.serializeAll ps) ∧
      (ts.serializeAll ps).tags = firstDedupFrom ts.tags ps := by
  intro ps
  induction ps with
  | nil => intro ts hinv _; exact ⟨hinv, rfl⟩
  | cons p rest ih =>
      intro ts hinv hb
      obtain ⟨h1, h2⟩ := TagSerializer.serialize_step ts p hinv (hb p (by simp))
      have hstep : ts.serializeAll (p :: rest) = (ts.serialize p.1 p.2).serializeAll rest := rfl
      obtain ⟨h3, h4⟩ := ih (ts.serialize p.1 p.2) h1 (fun q hq => hb q (by simp [hq]))
      rw [hstep]
      refine ⟨h3, ?_⟩
      rw [h4, h2]
      rfl

/-- The empty serializer satisfies the invariant. -/
theorem TagInv.new : TagInv TagSerializer.new :=
  ⟨by simp [TagSerializer.new], fun q => by simp [TagSerializer.new, List.lookup],
   by simp [TagSerializer.new]⟩

/-- Claim C6: starting from a fresh TagSerializer, serializing any sequence
of (key_idx, value_idx) pairs whose offsets fit in 40 bits produces a Tag
column without duplicate pairs; a pair creates a new Tag row exactly on its
first appearance (the column is the first-appearance dedup of the input),
otherwise only a TagIndex entry is appended. -/
theorem claim_C6_no_duplicate_tag_rows (ps : List (Nat × Nat))
    (hb : ∀ p ∈ ps, p.1 < 2 ^ 40 ∧ p.2 < 2 ^ 40) :
    (TagSerializer.new.serializeAll ps).tags.Nodup ∧
      (TagSerializer.new.serializeAll ps).tags = firstDedup ps := by
  obtain ⟨⟨-, -, hnod⟩, htags⟩ := TagSerializer.serializeAll_inv ps TagSerializer.new TagInv.new hb
  exact ⟨List.Nodup.of_map pairImage hnod, by rw [htags]; rfl⟩

/-- Witness for claim C6: serializing (1,2), (3,2), (1,2) creates exactly
the two distinct Tag rows, without duplicating (1,2). -/
theorem claim_C6_witness :
    (TagSerializer.new.serializeAll [(1, 2), (3, 2), (1, 2)]).tags.Nodup ∧
      (TagSerializer.new.serializeAll [(1, 2), (3, 2), (1, 2)]).tags =
        firstDedup [(1, 2), (3, 2), (1, 2)] :=
  claim_C6_no_duplicate_tag_rows [(1, 2), (3, 2), (1, 2)] (by norm_num)

/-- A dedup hit returns the stored offset and leaves the table unchanged. -/
theorem StringTable.insert_hit (st : StringTable) (s : List Nat) (idx : Nat)
    (h : List.lookup s st.indexed_data = some idx) :
    st.insert s = (st, idx) := by
  simp [StringTable.insert, h]

/-- A dedup miss appends `s ++ [0]` to the blob, records (s, old size) and
bumps the size by len+1, whatever the buffer splitting does. -/
theorem StringTable.insert_miss (st : StringTable) (s : List Nat)
    (h : List.lookup s st.indexed_data = none) :
    (st.insert s).2 = st.size_in_bytes ∧
    (st.insert s).1.into_bytes = st.into_bytes ++ (s ++ [0]) ∧
    (st.insert s).1.indexed_data = (s, st.size_in_bytes) :: st.indexed_data ∧
    (st.insert s).1.size_in_bytes = st.size_in_bytes + s.length + 1 := by
  refine ⟨?_, ?_, ?_, ?_⟩ <;>
    cases hd : st.data with
    | nil =>
        simp [StringTable.insert, h, hd, StringTable.into_bytes]
    | cons b rest =>
        by_cases hfit : b.bytes.length + s.length < b.cap <;>
          simp [StringTable.insert, h, hd, hfit, StringTable.into_bytes]

/-- A successful association-list lookup comes from an entry of the list. -/
theorem lookup_mem {α β : Type} [BEq α] [LawfulBEq α] :
    ∀ (l : List (α × β)) (a : α) (b : β), List.lookup a l = some b → (a, b) ∈ l := by
  intro l
  induction l with
  | nil => intro a b h; simp [List.lookup] at h
  | cons e rest ih =>
      intro a b h
      rw [List.lookup] at h
      by_cases he : a = e.1
      · have hbeq : (a == e.1) = true := beq_iff_eq.mpr he
        rw [hbeq] at h
        simp at h
        exact List.mem_cons.mpr (Or.inl (by rw [he, ← h]))
      · have hbeq : (a == e.1) = false := beq_eq_false_iff_ne.mpr he
        rw [hbeq] at h
        exact List.mem_cons_of_mem e (ih a b h)

/-- The empty string table satisfies the invariant. -/
theorem StrInv.base : StrInv StringTable.new := by
  refine ⟨rfl, rfl, ?_, ?_⟩ <;> simp [StringTable.new]

/-- One insert preserves the invariant, preserves all recorded lookups,
records the returned offset under the inserted string, and advances the
key sequence by the first-appearance dedup rule. -/
theorem StringTable.insert_inv (st : StringTable) (s : List Nat) (hinv : StrInv st) :
    StrInv (st.insert s).1 ∧
    (∀ t v, List.lookup t st.indexed_data = some v →
        List.lookup t (st.insert s).1.indexed_data = some v) ∧
    List.lookup s (st.insert s).1.indexed_data = some (st.insert s).2 ∧
    ((st.insert s).1.indexed_data.map Prod.fst).reverse =
      firstDedupFrom ((st.indexed_data.map Prod.fst).reverse) [s] := by
  obtain ⟨inv1, inv2, inv3, inv4⟩ := hinv
  cases hc : List.lookup s st.indexed_data with
  | some idx =>
      have hhit := StringTable.insert_hit st s idx hc
      have hsmem : s ∈ (st.indexed_data.map Prod.fst).reverse := by
        rw [List.mem_reverse]
        exact (lookup_isSome_iff st.indexed_data s).mp (by rw [hc]; rfl)
      rw [hhit]
      refine ⟨⟨inv1, inv2, inv3, inv4⟩, fun t v h => h, hc, ?_⟩
      simp [firstDedupFrom, hsmem]
  | none =>
      obtain ⟨hoff, hblob, hidx, hsize⟩ := StringTable.insert_miss st s hc
      have hsnmem : s ∉ (st.indexed_data.map Prod.fst).reverse := by
        rw [List.mem_reverse]
        intro hmem
        have := (lookup_isSome_iff st.indexed_data s).mpr hmem
        rw [hc] at this
        simp at this
      refine ⟨⟨?_, ?_, ?_, ?_⟩, ?_, ?_, ?_⟩
      · rw [hblob, hsize]
        simp [inv1]
        omega
      · rw [hblob, hidx, inv2]
        simp
      · intro p hp
        rw [hidx] at hp
        rcases List.mem_cons.mp hp with hp | hp
        · subst hp
          refine ⟨by rw [hsize], ?_⟩
          rw [hblob]
          show List.take (s.length + 1)
            (List.drop st.size_in_bytes (st.into_bytes ++ (s ++ [0]))) = s ++ [0]
          rw [← inv1, List.drop_left, show s.length + 1 = (s ++ [0]).length by simp,
            List.take_length]
        · obtain ⟨hb1, hb2⟩ := inv3 p hp
          refine ⟨by omega, ?_⟩
          rw [hblob, List.drop_append_eq_append_drop,
            Nat.sub_eq_zero_of_le (by omega), List.drop_zero,
            List.take_append_eq_append_take,
            Nat.sub_eq_zero_of_le (by simp; omega), List.take_zero, List.append_nil, hb2]
      · rw [hidx]
        simp only [List.map_cons, List.nodup_cons]
        constructor
        · intro hmem
          obtain ⟨p, hp, hpe⟩ := List.mem_map.mp hmem
          have := (inv3 p hp).1
          omega
        · exact inv4
      · intro t v h
        rw [hidx, List.lookup]
        have htne : t ≠ s := by
          intro he
          rw [he, hc] at h
          exact Option.noConfusion h
        rw [beq_eq_false_iff_ne.mpr htne]
        exact h
      · rw [hidx, hoff, List.lookup]
        simp
      · rw [hidx]
        simp only [List.map_cons, List.reverse_cons]
        simp [firstDedupFrom, hsnmem]

/-- Folding insert over a list of strings keeps the invariant, returns one
offset per string, preserves recorded lookups, records every inserted
string under its returned offset, and extends the key sequence by the
first-appearance dedup of the inputs. -/
theorem StringTable.insertMany_spec : ∀ (ss : List (List Nat)) (st : StringTable),
    StrInv st →
    StrInv (st.insertMany ss).1 ∧
    (st.insertMany ss).2.length = ss.length ∧
    (∀ t v, List.lookup t st.indexed_data = some v →
        List.lookup t (st.insertMany ss).1.indexed_data = some v) ∧
    (∀ i, i < ss.length →
        List.lookup (ss.getD i []) (st.insertMany ss).1.indexed_data =
          some ((st.insertMany ss).2.getD i 0)) ∧
    ((st.insertMany ss).1.indexed_data.map Prod.fst).reverse =
      firstDedupFrom ((st.indexed_data.map Prod.fst).reverse) ss := by
  intro ss
  induction ss with
  | nil =>
      intro st hinv
      exact ⟨hinv, rfl, fun t v h => h, fun i hi => absurd hi (by simp), rfl⟩
  | cons s rest ih =>
      intro st hinv
      obtain ⟨hinv1, hpres1, hrec1, hkeys1⟩ := StringTable.insert_inv st s hinv
      obtain ⟨hinv2, hlen2, hpres2, hrec2, hkeys2⟩ := ih (st.insert s).1 hinv1
      have hunfold : st.insertMany (s :: rest) =
          (((st.insert s).1.insertMany rest).1,
            (st.insert s).2 :: ((st.insert s).1.insertMany rest).2) := rfl
      rw [hunfold]
      refine ⟨hinv2, by simp [hlen2], ?_, ?_, ?_⟩
      · intro t v h
        exact hpres2 t v (hpres1 t v h)
      · intro i hi
        cases i with
        | zero => simpa using hpres2 s (st.insert s).2 hrec1
        | succ j =>
            have hj : j < rest.length := by simpa using hi
            simpa using hrec2 j hj
      · rw [hkeys2, hkeys1]
        rfl

/-- Claim C5: for every sequence of NUL-free strings inserted into a fresh
StringTable (insert itself is a pure function of the table state, hence
deterministic): the same string always gets the same offset, distinct
strings get distinct offsets, the final into_bytes blob carries each
inserted string NUL-terminated at its returned offset, and the blob is
exactly the NUL-terminated deduplicated strings in first-insertion order. -/
theorem claim_C5_stringtable_insert (ss : List (List Nat)) (hnul : ∀ s ∈ ss, 0 ∉ s) :
    (StringTable.new.insertMany ss).2.length = ss.length ∧
    (∀ i j, i < ss.length → j < ss.length → ss.getD i [] = ss.getD j [] →
        (StringTable.new.insertMany ss).2.getD i 0 =
          (StringTable.new.insertMany ss).2.getD j 0) ∧
    (∀ i j, i < ss.length → j < ss.length → ss.getD i [] ≠ ss.getD j [] →
        (StringTable.new.insertMany ss).2.getD i 0 ≠
          (StringTable.new.insertMany ss).2.getD j 0) ∧
    (∀ i, i < ss.length →
        (((StringTable.new.insertMany ss).1.into_bytes.drop
            ((StringTable.new.insertMany ss).2.getD i 0)).take
          ((ss.getD i []).length + 1)) = ss.getD i [] ++ [0]) ∧
    (StringTable.new.insertMany ss).1.into_bytes =
      ((firstDedup ss).map (fun s => s ++ [0])).flatten := by
  obtain ⟨⟨inv1, inv2, inv3, inv4⟩, hlen, -, hrec, hkeys⟩ :=
    StringTable.insertMany_spec ss StringTable.new StrInv.base
  refine ⟨hlen, ?_, ?_, ?_, ?_⟩
  · intro i j hi hj he
    have h1 := hrec i hi
    have h2 := hrec j hj
    rw [he] at h1
    rw [h1] at h2
    exact (Option.some.injEq _ _).mp h2
  · intro i j hi hj hne heq
    have h1 := lookup_mem _ _ _ (hrec i hi)
    have h2 := lookup_mem _ _ _ (hrec j hj)
    rw [heq] at h1
    have := List.inj_on_of_nodup_map inv4 h1 h2 rfl
    rw [Prod.mk.injEq] at this
    exact hne this.1
  · intro i hi
    have h1 := lookup_mem _ _ _ (hrec i hi)
    exact (inv3 _ h1).2
  · rw [inv2]
    have : (StringTable.new.insertMany ss).1.indexed_data.reverse.map
        (fun p => p.1 ++ [0]) =
        (((StringTable.new.insertMany ss).1.indexed_data.map Prod.fst).reverse).map
          (fun s => s ++ [0]) := by
      simp [List.map_reverse, List.map_map, Function.comp]
    rw [this, hkeys]
    rfl

/-- Witness for claim C5 on the concrete insertions "h", "hi", "h": the
duplicate gets offset 0 again, the two distinct strings get distinct
offsets, the blob carries "hi\0" at offset 2, and the blob is exactly
"h\0hi\0". -/
theorem claim_C5_witness :
    ((StringTable.new.insertMany [[104], [104, 105], [104]]).2.length = 3 ∧
      (StringTable.new.insertMany [[104], [104, 105], [104]]).2.getD 0 0 =
        (StringTable.new.insertMany [[104], [104, 105], [104]]).2.getD 2 0 ∧
      (StringTable.new.insertMany [[104], [104, 105], [104]]).2.getD 0 0 ≠
        (StringTable.new.insertMany [[104], [104, 105], [104]]).2.getD 1 0 ∧
      ((StringTable.new.insertMany [[104], [104, 105], [104]]).1.into_bytes.drop
          ((StringTable.new.insertMany [[104], [104, 105], [104]]).2.getD 1 0)).take 3 =
        [104, 105, 0] ∧
      (StringTable.new.insertMany [[104], [104, 105], [104]]).1.into_bytes =
        ((firstDedup [[104], [104, 105], [104]]).map (fun s => s ++ [0])).flatten) := by
  have h := claim_C5_stringtable_insert [[104], [104, 105], [104]] (by decide)
  exact ⟨h.1, h.2.1 0 2 (by decide) (by decide) rfl,
    h.2.2.1 0 1 (by decide) (by decide) (by decide),
    h.2.2.2.1 1 (by decide), h.2.2.2.2⟩

/-- Inserting into a Sparse block below the conversion budget just appends
(the rewriting form used to evaluate small concrete runs without forcing
the huge Dense bitset of the dead else-branch). -/
theorem IdBlock.insert_sparse (ids : List Nat) (x : Nat)
    (h : ids.length * 8 < ID_BLOCK_SIZE / 8) :
    (IdBlock.Sparse ids).insert x = .Sparse (ids ++ [x]) := by
  simp [IdBlock.insert, h]

/-- Claim C4 (refuted): the tag_first_idx fields of the nodes column are
not monotone for every input.  On the two blocks above the code produces
rows [0, 1, 0, 2] (the untagged node of the second block never has
set_tag_first_idx called — the call sits inside
`if tags_offset < keys_vals.len()` — so its field stays at the default 0,
which is smaller than the 1 of the previous row). -/
theorem claim_C4_tag_first_idx_not_monotone :
    ((serializeDenseNodeBlocks [c4Block1, c4Block2] 1000000000 denseInit {}).map
        (fun r => r.1.nodes.map NodeRow.tag_first_idx) = .ok [0, 1, 0, 2]) ∧
    ¬ ([0, 1, 0, 2].Chain' (· ≤ ·)) := by
  constructor
  · rfl
  · simp [List.chain'_cons]

/-- The gcd loop agrees with the mathematical gcd whenever that gcd is at
least 2 (the loop stops at x = 1 and returns y instead of 1, so coprime
arguments with max > 1 give a wrong result). -/
theorem gcdLoop_eq_gcd : ∀ (x y : Nat), 2 ≤ Nat.gcd x y → gcdLoop x y = Nat.gcd x y := by
  intro x
  induction x using Nat.strong_induction_on with
  | _ x ih =>
      intro y hg
      match x, hg with
      | 0, hg => rw [gcdLoop]; simp [Nat.gcd_zero_left]
      | 1, hg => rw [Nat.gcd_one_left] at hg; omega
      | (n + 2), hg =>
          rw [gcdLoop, dif_pos (by omega)]
          have hrec : Nat.gcd (n + 2) y = Nat.gcd (y % (n + 2)) (n + 2) := Nat.gcd_rec _ _
          rw [hrec] at hg ⊢
          exact ih (y % (n + 2)) (Nat.mod_lt y (by omega)) (n + 2) hg

/-- gcd(a, b) of main.rs agrees with the mathematical gcd whenever that gcd
is at least 2. -/
theorem gcdRust_eq_gcd (a b : Nat) (h : 2 ≤ Nat.gcd a b) : gcdRust a b = Nat.gcd a b := by
  rcases Nat.le_total a b with hab | hab
  · rw [gcdRust, Nat.min_eq_left hab, Nat.max_eq_right hab]
    exact gcdLoop_eq_gcd a b h
  · rw [gcdRust, Nat.min_eq_right hab, Nat.max_eq_left hab]
    rw [Nat.gcd_comm] at h
    rw [gcdLoop_eq_gcd b a h, Nat.gcd_comm]

/-- Claim C2 (refuted): the archive coordinate scale is not 1e9 / gcd of
the granularities for every input.  For a single dense-node block of
granularity 1 the helper returns gcd(1e9, 1) = 1e9 (mathematically it is
1), so the stored scale is 1e9/1e9 = 1, not the 1e9/1 = 1e9 the claim
demands. -/
theorem claim_C2_counterexample :
    gcdRust 1000000000 1 = 1000000000 ∧
    Nat.gcd 1000000000 1 = 1 ∧
    coordScale [⟨BlockType.DenseNodes, some 1⟩] = 1 ∧
    coordScale [⟨BlockType.DenseNodes, some 1⟩] ≠
      1000000000 / Nat.gcd 1000000000 1 := by
  have h1 : gcdRust 1000000000 1 = 1000000000 := by
    rw [gcdRust]
    norm_num
    rw [gcdLoop]
    norm_num
  have h2 : Nat.gcd 1000000000 1 = 1 := Nat.gcd_one_right _
  have h3 : coordScale [⟨BlockType.DenseNodes, some 1⟩] = 1 := by
    rw [coordScale, greatestCommonGranularity]
    simp [h1]
  exact ⟨h1, h2, h3, by rw [h3, h2]; norm_num⟩

/-- The run() fold is the gcd-helper fold over the explicit dense-block
granularities. -/
theorem greatestCommonGranularity_eq_fold (blocks : List BlockIndex) :
    greatestCommonGranularity blocks =
      (explicitGranularities blocks).foldl gcdRust 1000000000 := by
  suffices h : ∀ (bs : List BlockIndex) (acc : Nat),
      bs.foldl
        (fun acc b =>
          if b.block_type = BlockType.DenseNodes then
            match b.granularity with
            | some g => gcdRust acc g
            | none => acc
          else acc) acc
        = (explicitGranularities bs).foldl gcdRust acc by
    exact h blocks 1000000000
  intro bs
  induction bs with
  | nil => intro acc; rfl
  | cons b rest ih =>
      intro acc
      by_cases hb : b.block_type = BlockType.DenseNodes
      · cases hg : b.granularity with
        | none => simp [List.foldl_cons, hb, hg, explicitGranularities, List.filterMap_cons, ih]
        | some g => simp [List.foldl_cons, hb, hg, explicitGranularities, List.filterMap_cons, ih]
      · simp [List.foldl_cons, hb, explicitGranularities, List.filterMap_cons, ih]

/-- Under that condition the helper fold equals the mathematical gcd
fold. -/
theorem foldl_gcdRust_eq_gcd : ∀ (gs : List Nat) (acc : Nat),
    foldGcdGoodB acc gs = true → gs.foldl gcdRust acc = gs.foldl Nat.gcd acc := by
  intro gs
  induction gs with
  | nil => intro acc _; rfl
  | cons g rest ih =>
      intro acc hgood
      rw [foldGcdGoodB, Bool.and_eq_true, decide_eq_true_iff] at hgood
      rw [List.foldl_cons, List.foldl_cons, gcdRust_eq_gcd acc g hgood.1]
      exact ih (Nat.gcd acc g) hgood.2

/-- Shifting a RowsSpec by one freshly appended row. -/
theorem RowsSpec.cons (nodes stN : List NodeRow) (node : NodeRow) (cnt : Nat)
    (latOff lonOff pbfGran G latAcc lonAcc dLat dLon : Int)
    (latRest lonRest : List Int)
    (hpre : ∀ m, m < stN.length + 1 →
        nodes.getD m default = (stN ++ [node]).getD m default)
    (hnode_lat : node.lat = wrap32 ((latOff + pbfGran * (latAcc + dLat)).tdiv G))
    (hnode_lon : node.lon = wrap32 ((lonOff + pbfGran * (lonAcc + dLon)).tdiv G))
    (htail : RowsSpec nodes (stN.length + 1) cnt latOff lonOff pbfGran G
        (latAcc + dLat) (lonAcc + dLon) latRest lonRest) :
    RowsSpec nodes stN.length (cnt + 1) latOff lonOff pbfGran G latAcc lonAcc
      (dLat :: latRest) (dLon :: lonRest) := by
  intro j hj
  cases j with
  | zero =>
      have hmid : nodes.getD (stN.length + 0) default = node := by
        rw [hpre (stN.length + 0) (by omega)]
        simp
      rw [hmid, hnode_lat, hnode_lon]
      simp
  | succ j =>
      have hidx : stN.length + (j + 1) = stN.length + 1 + j := by omega
      have htj := htail j (by omega)
      rw [hidx]
      constructor
      · rw [htj.1, List.take_succ_cons, List.sum_cons]
        have : latAcc + (dLat + (latRest.take (j + 1)).sum)
            = latAcc + dLat + (latRest.take (j + 1)).sum := by ring
        rw [this]
      · rw [htj.2, List.take_succ_cons, List.sum_cons]
        have : lonAcc + (dLon + (lonRest.take (j + 1)).sum)
            = lonAcc + dLon + (lonRest.take (j + 1)).sum := by ring
        rw [this]

/-- Closed form of the dense-node loop: on success it appends one row per
id, leaves earlier rows untouched, and every appended row's lat/lon is the
source fixed-point value (offset + granularity · prefix-sum of deltas)
integer-divided by the archive granularity G and truncated to i32. -/
theorem denseLoop_rows : ∀ (ids lats lons : List Int) (kv : List Nat)
    (pbfGran latOff lonOff G : Int) (refs : List Nat) (idAcc latAcc lonAcc : Int)
    (st st' : DenseState) (kv' : List Nat),
    denseLoop pbfGran latOff lonOff G refs ids lats lons kv idAcc latAcc lonAcc st
      = .ok (st', kv') →
    st'.nodes.length = st.nodes.length + ids.length ∧
    (∀ m, m < st.nodes.length → st'.nodes.getD m default = st.nodes.getD m default) ∧
    RowsSpec st'.nodes st.nodes.length ids.length latOff lonOff pbfGran G
      latAcc lonAcc lats lons := by
  intro ids
  induction ids with
  | nil =>
      intro lats lons kv pbfGran latOff lonOff G refs idAcc latAcc lonAcc st st' kv' h
      rw [denseLoop] at h
      injection h with h1
      injection h1 with h1 h2
      subst h1
      exact ⟨by simp, fun m _ => rfl, fun j hj => absurd hj (by simp)⟩
  | cons dId idRest ih =>
      intro lats lons kv pbfGran latOff lonOff G refs idAcc latAcc lonAcc st st' kv' h
      cases lats with
      | nil =>
          cases lons with
          | nil => simp [denseLoop] at h
          | cons dLon lonRest => simp [denseLoop] at h
      | cons dLat latRest =>
      cases lons with
      | nil => simp [denseLoop] at h
      | cons dLon lonRest =>
      rw [denseLoop] at h
      cases hins : st.builder.insert (toU64 (idAcc + dId)) with
      | error e => simp only [hins] at h; exact absurd h (by simp)
      | ok p =>
      obtain ⟨builder, index⟩ := p
      simp only [hins] at h
      by_cases hidx : index ≠ st.nodes.length
      · rw [if_pos hidx] at h
        exact absurd h (by simp)
      · rw [if_neg hidx] at h
        cases hkv : kv.isEmpty with
        | true =>
            rw [hkv, if_pos rfl] at h
            obtain ⟨hlen, hpre, hrows⟩ := ih _ _ _ _ _ _ _ _ _ _ _ _ _ _ h
            simp only [List.length_append, List.length_cons, List.length_nil] at hlen
            refine ⟨by simp [hlen]; omega, ?_, ?_⟩
            · intro m hm
              rw [hpre m (by simp; omega)]
              simp only
              rw [List.getD_append _ _ _ _ hm]
            · refine RowsSpec.cons st'.nodes st.nodes _ idRest.length
                latOff lonOff pbfGran G latAcc lonAcc dLat dLon latRest lonRest
                (fun m hm => hpre m (by simp; omega)) rfl rfl ?_
              have hsp := hrows
              simp only [List.length_append, List.length_cons, List.length_nil] at hsp
              exact hsp
        | false =>
            rw [if_neg (by simp [hkv])] at h
            cases hrt : readTags refs st.tags kv with
            | error e => simp only [hrt] at h; exact absurd h (by simp)
            | ok q =>
            obtain ⟨tags, kvRest⟩ := q
            simp only [hrt] at h
            obtain ⟨hlen, hpre, hrows⟩ := ih _ _ _ _ _ _ _ _ _ _ _ _ _ _ h
            simp only [List.length_append, List.length_cons, List.length_nil] at hlen
            refine ⟨by simp [hlen]; omega, ?_, ?_⟩
            · intro m hm
              rw [hpre m (by simp; omega)]
              simp only
              rw [List.getD_append _ _ _ _ hm]
            · refine RowsSpec.cons st'.nodes st.nodes _ idRest.length
                latOff lonOff pbfGran G latAcc lonAcc dLat dLon latRest lonRest
                (fun m hm => hpre m (by simp; omega)) rfl rfl ?_
              have hsp := hrows
              simp only [List.length_append, List.length_cons, List.length_nil] at hsp
              exact hsp

/-- Claim C2, amended: the archive coordinate scale equals 1e9 divided by
the gcd-helper fold over the granularities explicitly present in
dense-node blocks; the helper agrees with the mathematical gcd whenever
that gcd is at least 2, so whenever every intermediate gcd along the fold
stays ≥ 2 (e.g. granularities 100 and 1000) the spec formula
1e9 / gcd(granularities) holds; and every lat/lon stored by the dense-node
serializer is the source fixed-point value (offset + granularity ·
prefix-sum of deltas) integer-divided by the folded granularity G and
truncated to i32. -/
theorem claim_C2_amended_scale :
    (∀ a b : Nat, 2 ≤ Nat.gcd a b → gcdRust a b = Nat.gcd a b) ∧
    (∀ blocks : List BlockIndex,
        foldGcdGoodB 1000000000 (explicitGranularities blocks) = true →
        coordScale blocks =
          1000000000 / (explicitGranularities blocks).foldl Nat.gcd 1000000000) ∧
    (∀ (ids lats lons : List Int) (kv kv' : List Nat)
        (pbfGran latOff lonOff G : Int) (refs : List Nat) (st st' : DenseState),
        denseLoop pbfGran latOff lonOff G refs ids lats lons kv 0 0 0 st
          = .ok (st', kv') →
        RowsSpec st'.nodes st.nodes.length ids.length latOff lonOff pbfGran G
          0 0 lats lons) := by
  refine ⟨gcdRust_eq_gcd, ?_, ?_⟩
  · intro blocks h
    rw [coordScale, greatestCommonGranularity_eq_fold, foldl_gcdRust_eq_gcd _ _ h]
  · intro ids lats lons kv kv' pbfGran latOff lonOff G refs st st' h
    exact (denseLoop_rows ids lats lons kv pbfGran latOff lonOff G refs 0 0 0 st st' kv' h).2.2

/-- Witness for the amended claim C2: for granularities 100 and 1000 the
fold is the true gcd and the scale is 1e9/100 = 10^7; and a one-node block
(lat delta 7, lon delta 9, pbf granularity 100, archive granularity 5)
stores lat 140 and lon 180. -/
theorem claim_C2_amended_witness :
    gcdRust 100 1000 = Nat.gcd 100 1000 ∧
    coordScale [⟨BlockType.DenseNodes, some 100⟩, ⟨BlockType.DenseNodes, some 1000⟩]
      = 10000000 ∧
    RowsSpec [⟨140, 180, 0⟩] 0 1 0 0 100 5 0 0 [7] [9] := by
  refine ⟨claim_C2_amended_scale.1 100 1000 (by norm_num), ?_, ?_⟩
  · have h := claim_C2_amended_scale.2.1
      [⟨BlockType.DenseNodes, some 100⟩, ⟨BlockType.DenseNodes, some 1000⟩]
      (by norm_num [foldGcdGoodB, explicitGranularities])
    rw [h]
    norm_num [explicitGranularities, List.filterMap_cons, List.foldl_cons, List.foldl_nil]
  · have h := claim_C2_amended_scale.2.2 [3] [7] [9] [] [] 100 0 0 5 [] denseInit
      ⟨[⟨140, 180, 0⟩], none, ⟨[IdBlock.Sparse [3]], some 3, 1⟩,
        StringTable.new, TagSerializer.new⟩ rfl
    exact h

/-- Claim C3 (refuted): the unresolved statistics are not the total counts.
serialize_relations ASSIGNS `stats.num_unresolved_node_ids =
idx.is_none()` instead of incrementing, so a relation with two unresolved
node members yields a count of 1 (the claim demands 2), and a relation
whose unresolved member is followed by a resolved one yields 0 (the claim
demands 1) — even though the members column does store the absent variants
(2 resp. 1 of them). -/
theorem claim_C3_unresolved_counter_not_incremented :
    ((serialize_relations c3Block1 (tableOf [1]) (tableOf [1]) (tableOf [100]) relInit).map
        (fun r => (r.2.num_unresolved_node_ids, absentNodeMembers r.1.relation_members))
      = .ok (1, 2)) ∧
    ((serialize_relations c3Block2 (tableOf [1]) (tableOf [1]) (tableOf [100]) relInit).map
        (fun r => (r.2.num_unresolved_node_ids, absentNodeMembers r.1.relation_members))
      = .ok (0, 1)) ∧
    (1 : Nat) ≠ 2 ∧ (0 : Nat) ≠ 1 := by
  exact ⟨rfl, rfl, by norm_num, by norm_num⟩

/-- Two booleans agreeing as propositions are equal. -/
theorem bool_eq_of_iff {a b : Bool} (h : a = true ↔ b = true) : a = b := by
  cases a <;> cases b <;> simp_all

/-- For a NUL-free pattern, the byte-level prefix-and-terminator test is
exactly equality with the NUL-terminated string at that position. -/
theorem matches_iff : ∀ (pat block : List Nat), 0 ∉ pat →
    ((pat.isPrefixOf block && (block.getD pat.length 0 == 0)) = true ↔
      block.takeWhile (fun b => b != 0) = pat) := by
  intro pat
  induction pat with
  | nil =>
      intro block _
      cases block with
      | nil => simp
      | cons b bs =>
          by_cases hb : b = 0
          · subst hb; simp [List.takeWhile]
          · have hbne : (b != 0) = true := by simpa using hb
            simp [List.takeWhile, hbne]
            exact hb
  | cons p ps ih =>
      intro block hnul
      have hp : p ≠ 0 := fun hc => hnul (by rw [hc]; exact List.mem_cons_self 0 ps)
      have hps : 0 ∉ ps := fun hc => hnul (List.mem_cons_of_mem _ hc)
      cases block with
      | nil => simp [List.isPrefixOf]
      | cons b bs =>
          by_cases hb : b = 0
          · subst hb
            simp [List.takeWhile, List.isPrefixOf, hp]
          · have hbne : (b != 0) = true := by simpa using hb
            rw [show List.takeWhile (fun x => x != 0) (b :: bs)
                = b :: List.takeWhile (fun x => x != 0) bs from by
                  simp [List.takeWhile, hbne]]
            rw [show (p :: ps).isPrefixOf (b :: bs) = ((p == b) && ps.isPrefixOf bs)
                from rfl]
            rw [show (b :: bs).getD (p :: ps).length 0 = bs.getD ps.length 0 from rfl]
            constructor
            · intro h
              rw [Bool.and_assoc, Bool.and_eq_true, beq_iff_eq] at h
              obtain ⟨hpe, hrest⟩ := h
              rw [(ih bs hps).mp hrest, hpe]
            · intro h
              injection h with h1 h2
              rw [Bool.and_assoc, Bool.and_eq_true, beq_iff_eq]
              exact ⟨h1.symm, (ih bs hps).mpr h2⟩

/-- The scan loop of has_tag computes the declarative first-key-wins
description, provided every scanned index leads to a tag whose offsets are
within the string pool. -/
theorem hasTagGo_spec (a : Osm) (key value : List Nat) (hk : 0 ∉ key) (hv : 0 ∉ value) :
    ∀ (n start : Nat),
      (∀ i, start ≤ i → i < start + n → ∃ tag, tagAt a i = some tag ∧
          tag.1 ≤ a.stringtable.length ∧ tag.2 ≤ a.stringtable.length) →
      hasTagGo a key value start n = .ok
        (match (List.range' start n).find?
            (fun i => match tagAt a i with
              | some tag => substringAt a.stringtable tag.1 == key
              | none => false) with
         | some i =>
             match tagAt a i with
             | some tag => substringAt a.stringtable tag.2 == value
             | none => false
         | none => false) := by
  intro n
  induction n with
  | zero => intro start _; rfl
  | succ m ih =>
      intro start hwf
      obtain ⟨tag, htag, hb1, hb2⟩ := hwf start (le_refl _) (by omega)
      obtain ⟨ti, hti, htg⟩ := Option.bind_eq_some.mp htag
      have hmat1 : matchesAt a.stringtable tag.1 key
          = .ok (substringAt a.stringtable tag.1 == key) := by
        rw [matchesAt, if_neg (by omega)]
        show Except.ok (key.isPrefixOf (a.stringtable.drop tag.1)
            && ((a.stringtable.drop tag.1).getD key.length 0 == 0))
          = Except.ok (substringAt a.stringtable tag.1 == key)
        congr 1
        refine bool_eq_of_iff ?_
        rw [beq_iff_eq]
        exact matches_iff key _ hk
      have hmat2 : matchesAt a.stringtable tag.2 value
          = .ok (substringAt a.stringtable tag.2 == value) := by
        rw [matchesAt, if_neg (by omega)]
        show Except.ok (value.isPrefixOf (a.stringtable.drop tag.2)
            && ((a.stringtable.drop tag.2).getD value.length 0 == 0))
          = Except.ok (substringAt a.stringtable tag.2 == value)
        congr 1
        refine bool_eq_of_iff ?_
        rw [beq_iff_eq]
        exact matches_iff value _ hv
      rw [List.range'_succ]
      simp only [hasTagGo, hti, htg, hmat1, List.find?_cons, htag]
      cases hkey : (substringAt a.stringtable tag.1 == key) with
      | true =>
          simp only [hmat2, htag]
      | false =>
          simp only []
          rw [ih (start + 1) (fun i h1 h2 => hwf i (by omega) (by omega))]

/-- Claim C7: for every archive, range, NUL-free key and value such that
the scanned tag-index entries lead to in-pool tag offsets, has_tag scans
the range in order, stops at the first tag whose key (read up to the NUL
terminator) equals the given key and returns whether exactly that tag's
value equals the given value — false immediately when the first matching
key carries a different value (later tags are not examined), false when no
key in the range matches. -/
theorem claim_C7_has_tag_first_key_wins (a : Osm) (start stop : Nat)
    (key value : List Nat) (hk : 0 ∉ key) (hv : 0 ∉ value)
    (hwf : ∀ i, start ≤ i → i < stop → ∃ tag, tagAt a i = some tag ∧
        tag.1 ≤ a.stringtable.length ∧ tag.2 ≤ a.stringtable.length) :
    has_tag a start stop key value = .ok (hasTagSpec a start stop key value) := by
  rw [has_tag, hasTagSpec]
  exact hasTagGo_spec a key value hk hv (stop - start) start
    (fun i h1 h2 => hwf i h1 (by omega))

/-- Witness for claim C7: on the archive above, has_tag finds
("hw", "pr") at the first index, and has_tag("hw", "se") over both indices
is false — the first matching key wins, the second tag (which does carry
value "se") is never considered. -/
theorem claim_C7_witness :
    has_tag osmW 0 2 [104, 119] [112, 114]
        = .ok (hasTagSpec osmW 0 2 [104, 119] [112, 114]) ∧
      hasTagSpec osmW 0 2 [104, 119] [112, 114] = true ∧
    has_tag osmW 0 2 [104, 119] [115, 101]
        = .ok (hasTagSpec osmW 0 2 [104, 119] [115, 101]) ∧
      hasTagSpec osmW 0 2 [104, 119] [115, 101] = false := by
  have hwf : ∀ i, 0 ≤ i → i < 2 → ∃ tag, tagAt osmW i = some tag ∧
      tag.1 ≤ osmW.stringtable.length ∧ tag.2 ≤ osmW.stringtable.length := by
    intro i _ h2
    match i, h2 with
    | 0, _ => exact ⟨(0, 3), rfl, by norm_num [osmW], by norm_num [osmW]⟩
    | 1, _ => exact ⟨(0, 6), rfl, by norm_num [osmW], by norm_num [osmW]⟩
  refine ⟨claim_C7_has_tag_first_key_wins osmW 0 2 [104, 119] [112, 114]
      (by decide) (by decide) hwf, rfl,
    claim_C7_has_tag_first_key_wins osmW 0 2 [104, 119] [115, 101]
      (by decide) (by decide) hwf, rfl⟩
